import Mathlib

/-!
Verification of the `rxsv` store engine (`src/index.ts`) against its
natural-language specification.

The source is a small RxJS-based redux-like store.  We shallowly embed it:

* actions (`createAction`, the `Action` shape) become the `ActionObj`
  structure with an optional payload;
* the store pipeline (`createStore`: a `BehaviorSubject` action stream
  seeded with `@@INIT`, a state stream produced by
  `scan(rootReducer, rootReducer(undefined, @@INIT/state))` followed by
  `shareReplay()`, and the effect-registration subject) becomes an explicit
  state machine `StoreSt` driven by operations (`dispatch`, subscribe to the
  action stream, subscribe to the state stream).  The RxJS semantics
  embedded here are those of rxjs 6, which the source imports:
  a `BehaviorSubject` replays exactly its latest value to a new subscriber;
  `scan` emits one folded value per source value and never emits its seed;
  `shareReplay()` (no argument) multicasts a single subscription to the
  source, starts it at the first subscriber, and replays its entire
  unbounded buffer to each later subscriber.  The effect's output stream is
  modelled as silent (the claims under study only dispatch externally), but
  the unconditional `effect$.next(rootEffect)` of line 48 is recorded in the
  `effectPublishes` counter.
* `combineReducers`, `combineEffects` and `select` become list/trace level
  functions (`combineReducers` over association-list objects, `selectOp`
  over value traces, `combineEffects` over per-effect traces merged by an
  interleaving relation).
-/

/-- A JS action object `{ type, payload? }`; `payload = none` models the
absence of the `payload` field (the source treats a missing argument and an
explicit `undefined` identically). -/
structure ActionObj (P : Type) where
  type : String
  payload : Option P
deriving DecidableEq

/-- `createAction` (source lines 13–20): `payload === void 0` yields
`{ type }`, otherwise `{ type, payload }`.  No validation is performed. -/
def createAction {P : Type} (type : String) (payload : Option P) : ActionObj P :=
  match payload with
  | none => { type := type, payload := none }
  | some v => { type := type, payload := some v }

/-- The reserved bootstrap action `createAction('@@INIT')` seeded into the
action `BehaviorSubject` (line 34). -/
def initAction {P : Type} : ActionObj P := { type := "@@INIT", payload := none }

/-- The reserved bootstrap action `createAction('@@INIT/state')` used once to
compute the scan seed (line 39). -/
def initStateAction {P : Type} : ActionObj P := { type := "@@INIT/state", payload := none }

/-- `Reducer<A, S> = (state: S | undefined, action: A) => S`. -/
def Reducer (A S : Type) := Option S → A → S

/-- Operations driven against a store: an external dispatch
(`action$.next a`), a subscription to `action$`, or a subscription to
`state$`, the latter two tagged with a subscriber id. -/
inductive StoreOp (P : Type) where
  | dispatch (a : ActionObj P)
  | subAction (id : Nat)
  | subState (id : Nat)
deriving DecidableEq

/-- Observable state of a store built by `createStore` (lines 30–54):
the `BehaviorSubject`'s current action, the `scan` accumulator, whether the
`shareReplay()`ed state pipeline has been started by a first subscriber,
the `shareReplay` buffer, the number of `rootReducer` invocations so far,
the per-id subscription flags and observation traces for both streams, and
the number of values published into the internal `effect$` subject. -/
structure StoreSt (P S : Type) where
  current : ActionObj P
  acc : S
  started : Bool
  buffer : List S
  calls : Nat
  actionSub : Nat → Bool
  actionObs : Nat → List (ActionObj P)
  stateSub : Nat → Bool
  stateObs : Nat → List S
  effectPublishes : Nat

/-- Deliver a newly computed state value: append it to the `shareReplay`
buffer and to every currently subscribed state observer. -/
def pushState {P S : Type} (s : S) (st : StoreSt P S) : StoreSt P S :=
  { st with
    buffer := st.buffer ++ [s]
    stateObs := fun i => if st.stateSub i then st.stateObs i ++ [s] else st.stateObs i }

/-- One operation against the store, embedding the rxjs-6 semantics of the
pipeline of lines 34–41:
* `dispatch a`: the `BehaviorSubject` stores `a` and pushes it to every
  action subscriber; if the shared state pipeline is started, `scan` folds
  `a` into the accumulator (one reducer call) and the result is delivered;
* `subAction i`: the `BehaviorSubject` replays its current value to the new
  subscriber;
* `subState i`: `shareReplay` first replays its whole buffer to the new
  subscriber; if the shared source subscription does not exist yet it is
  created now, upon which the `BehaviorSubject` synchronously emits its
  current value through `scan` (one reducer call), delivered to everyone. -/
def stepOp {P S : Type} (R : Reducer (ActionObj P) S) (st : StoreSt P S) :
    StoreOp P → StoreSt P S
  | .dispatch a =>
    let st1 : StoreSt P S :=
      { st with
        current := a
        actionObs := fun i => if st.actionSub i then st.actionObs i ++ [a] else st.actionObs i }
    if st1.started then
      let s1 := R (some st1.acc) a
      { pushState s1 st1 with acc := s1, calls := st1.calls + 1 }
    else st1
  | .subAction i =>
    { st with
      actionSub := fun j => if j = i then true else st.actionSub j
      actionObs := fun j => if j = i then st.actionObs j ++ [st.current] else st.actionObs j }
  | .subState i =>
    let st1 : StoreSt P S :=
      { st with
        stateSub := fun j => if j = i then true else st.stateSub j
        stateObs := fun j => if j = i then st.stateObs j ++ st.buffer else st.stateObs j }
    if st1.started then st1
    else
      let s1 := R (some st1.acc) st1.current
      { pushState s1 { st1 with started := true } with acc := s1, calls := st1.calls + 1 }

/-- The store right after `createStore(rootReducer, rootEffect)` returns
(lines 34–48): the action `BehaviorSubject` holds `@@INIT`; the `scan` seed
`rootReducer(void 0, createAction('@@INIT/state'))` has been computed
eagerly (one reducer call) but the `shareReplay()` pipeline is not yet
started; and `effect$.next(rootEffect)` has run unconditionally (line 48),
whether or not an effect argument was supplied — hence one publish into the
effect-registration subject in either case. -/
def storeInit {P S : Type} (R : Reducer (ActionObj P) S) (rootEffect : Option Unit) :
    StoreSt P S :=
  { current := initAction
    acc := R none initStateAction
    started := false
    buffer := []
    calls := 1
    actionSub := fun _ => false
    actionObs := fun _ => []
    stateSub := fun _ => false
    stateObs := fun _ => []
    effectPublishes := match rootEffect with | _ => 1 }

/-- Run a list of operations against a store state. -/
def runOps {P S : Type} (R : Reducer (ActionObj P) S) (ops : List (StoreOp P))
    (st : StoreSt P S) : StoreSt P S :=
  ops.foldl (stepOp R) st

/-- Build a store and run a list of operations against it. -/
def runStore {P S : Type} (R : Reducer (ActionObj P) S) (rootEffect : Option Unit)
    (ops : List (StoreOp P)) : StoreSt P S :=
  runOps R ops (storeInit R rootEffect)

/-- The successive states of manually folding a reducer over an action list
from a given seed (the seed itself is not listed, matching `scan`). -/
def foldStates {A S : Type} (R : Reducer A S) (s : S) : List A → List S
  | [] => []
  | a :: rest => R (some s) a :: foldStates R (R (some s) a) rest

/-- The final accumulator of folding a reducer over an action list. -/
def foldAcc {A S : Type} (R : Reducer A S) (s : S) : List A → S
  | [] => s
  | a :: rest => foldAcc R (R (some s) a) rest

/-! ### `combineReducers` (source lines 62–75)

A JS object is embedded as an insertion-ordered association list with
(assumed) distinct keys; `{...acc, [field]: next}` replaces the field in
place when present and appends it otherwise; a missing field reads as
`undefined`, i.e. `none`.  The JS strict-equality test
`prevSubState !== nextSubState` is embedded as inequality in the sub-state
value type. -/

/-- A JS object with values of type `V`, as an insertion-ordered
association list. -/
def Obj (V : Type) := List (String × V)

/-- Field access `o[f]`: `none` models `undefined` for a missing field. -/
def getField {V : Type} : Obj V → String → Option V
  | [], _ => none
  | (g, w) :: rest, f => if g = f then some w else getField rest f

/-- The spread-update `{...o, [f]: v}`: the field keeps its position when
already present and is appended otherwise. -/
def setField {V : Type} : Obj V → String → V → Obj V
  | [], f, v => [(f, v)]
  | (g, w) :: rest, f, v => if g = f then (f, v) :: rest else (g, w) :: setField rest f v

/-- A per-field sub-reducer, as in the `Reducers` mapping of the source. -/
def SubReducer (V A : Type) := Option V → A → V

/-- One step of the `Object.entries(reducers).reduce` callback of lines
64–74: read the field from the accumulator, run the sub-reducer, and either
spread-update (when the sub-state changed by strict equality) or keep the
accumulator. -/
def crStep {V A : Type} [DecidableEq V] (action : A) (acc : Obj V)
    (fr : String × SubReducer V A) : Obj V :=
  if getField acc fr.1 ≠ some (fr.2 (getField acc fr.1) action)
  then setField acc fr.1 (fr.2 (getField acc fr.1) action)
  else acc

/-- `combineReducers` (lines 62–75): fold the reducer mapping over the
previous aggregate (defaulting a missing previous state to `{}`). -/
def combineReducers {V A : Type} [DecidableEq V]
    (reducers : List (String × SubReducer V A)) : Reducer A (Obj V) :=
  fun prevState action => reducers.foldl (crStep action) (prevState.getD [])

/-! ### `combineEffects` (source lines 77–79)

An effect is embedded at the trace level: a function from the (action,
state) input traces to its output action trace.  `merge` of the constituent
output streams is embedded as the relation `Interleave`: a merged trace is
any order-preserving interleaving of the constituent traces. -/

/-- A trace-level effect: `(action$, state$) => action$`. -/
def EffectFn (A S : Type) := List A → List S → List A

/-- `out` is an order-preserving interleaving of the source traces
(`merge` emission order: each source's relative order is preserved, nothing
else is constrained). -/
inductive Interleave {α : Type} : List (List α) → List α → Prop
  | done (srcs : List (List α)) (h : ∀ s ∈ srcs, s = []) : Interleave srcs []
  | step (pre : List (List α)) (x : α) (xs : List α) (post : List (List α)) (out : List α)
      (h : Interleave (pre ++ xs :: post) out) :
      Interleave (pre ++ (x :: xs) :: post) (x :: out)

/-- `combineEffects(...effects)` (lines 77–79): apply every constituent
effect to the same two input traces and merge the outputs; the possible
merged traces are the interleavings of the constituent outputs. -/
def combineEffects {A S : Type} (effects : List (EffectFn A S))
    (action : List A) (state : List S) (out : List A) : Prop :=
  Interleave (effects.map fun effect => effect action state) out

/-! ### `select` (source lines 83–96)

Source values are embedded as JS values with object identity: `obj id
fields` carries an identity tag so that the strict equality `===` used by
`distinctUntilChanged` (reference equality on objects, value equality on
primitives) is expressible as `jsEq`.  `pluck` descends through fields,
yielding `undefined` on a missing key or a non-object, as rxjs 6 does. -/

/-- A JS value: `undefined`, `null`, a primitive, or an object carrying an
identity tag and its fields. -/
inductive JSVal where
  | jsUndefined
  | jsNull
  | bool (b : Bool)
  | str (s : String)
  | num (n : Int)
  | obj (id : Nat) (fields : List (String × JSVal))

/-- Field lookup inside an object's field list; missing fields read as
`undefined`. -/
def lookupField : List (String × JSVal) → String → JSVal
  | [], _ => .jsUndefined
  | (g, v) :: rest, f => if g = f then v else lookupField rest f

/-- One `pluck` step: property access on a JS value; anything that is not
an object (including `null` and `undefined`) yields `undefined`. -/
def getProp : JSVal → String → JSVal
  | .obj _ fields, f => lookupField fields f
  | _, _ => .jsUndefined

/-- `pluck(seg1, ..., segk)`'s projection: descend through the path
segments in order. -/
def pluckPath (segs : List String) (v : JSVal) : JSVal :=
  segs.foldl getProp v

/-- JS strict equality `===`: value equality on primitives, reference
(identity-tag) equality on objects. -/
def jsEq : JSVal → JSVal → Bool
  | .jsUndefined, .jsUndefined => true
  | .jsNull, .jsNull => true
  | .bool a, .bool b => a == b
  | .str a, .str b => a == b
  | .num a, .num b => a == b
  | .obj i _, .obj j _ => i == j
  | _, _ => false

/-- The rxjs-6 `distinctUntilChanged` loop: `last` is the value most
recently emitted (`none` before the first emission); a source value is
emitted iff it is not `===` to `last`, and `last` is updated only on
emission. -/
def ducGo : Option JSVal → List JSVal → List JSVal
  | _, [] => []
  | last, b :: rest =>
    if (match last with | some a => jsEq a b | none => false) then ducGo last rest
    else b :: ducGo (some b) rest

/-- `distinctUntilChanged()` over a source trace. -/
def distinctUntilChanged (xs : List JSVal) : List JSVal :=
  ducGo none xs

/-- The argument of `select`: either a mapper function or the first path
string (matching the `typeof pathOrMapper === 'function'` test). -/
def PathOrMapper : Type := (JSVal → JSVal) ⊕ String

/-- The projection `select` applies to each source value: the mapper in
mapper mode, `pluck`'s path descent in path mode. -/
def selectProj (pathOrMapper : PathOrMapper) (paths : List String) : JSVal → JSVal :=
  match pathOrMapper with
  | .inl f => f
  | .inr p => pluckPath (p :: paths)

/-- `select` (lines 83–96) at the trace level: map every source value
through the projection, then `distinctUntilChanged()`. -/
def selectOp (pathOrMapper : PathOrMapper) (paths : List String)
    (source : List JSVal) : List JSVal :=
  distinctUntilChanged (source.map (selectProj pathOrMapper paths))

/-- A reducer that counts the actions folded so far (its bootstrap output is
`0`); used as a concrete input below. -/
def countReducer : Reducer (ActionObj Unit) Nat := fun s _ =>
  match s with
  | none => 0
  | some n => n + 1

/-- Invariant of a store whose shared state pipeline has started with first
computed state `s1`: the replay buffer starts with `s1`, every subscribed
state observer's trace starts with `s1`, and unsubscribed observers have
seen nothing. -/
def FirstStateInv {P S : Type} (s1 : S) (st : StoreSt P S) : Prop :=
  st.started = true
  ∧ st.buffer.head? = some s1
  ∧ ∀ j, if st.stateSub j then (st.stateObs j).head? = some s1 else st.stateObs j = []

/-- The negation of JS strict equality, as the relation under which
`distinctUntilChanged` keeps a value relative to the last emitted one. -/
def jsNeq (a b : JSVal) : Prop := ¬ (jsEq a b = true)

instance : DecidableRel jsNeq := fun _ _ => instDecidableNot

/-- A concrete two-field reducer mapping used as a witness input for
`combineReducers`: field `a` keeps its sub-state, field `b` increments. -/
def demoSubReducers : List (String × SubReducer Nat Nat) :=
  [("a", fun s _ => s.getD 0), ("b", fun s _ => s.getD 0 + 1)]

/-- A concrete previous aggregate for the `combineReducers` witness. -/
def demoPrev : Obj Nat := [("a", 5), ("b", 7)]

/-! ### Store run lemmas -/

theorem runOps_cons {P S : Type} (R : Reducer (ActionObj P) S) (op : StoreOp P)
    (ops : List (StoreOp P)) (st : StoreSt P S) :
    runOps R (op :: ops) st = runOps R ops (stepOp R st op) := rfl

theorem stepOp_dispatch_action {P S : Type} (R : Reducer (ActionObj P) S)
    (st : StoreSt P S) (a : ActionObj P) :
    (stepOp R st (.dispatch a)).actionSub = st.actionSub
    ∧ ∀ i, (stepOp R st (.dispatch a)).actionObs i
        = if st.actionSub i then st.actionObs i ++ [a] else st.actionObs i := by
  by_cases h : st.started = true <;> simp [stepOp, pushState, h]

/-- Running a list of external dispatches: the action-stream side.  Every
subscribed action observer sees exactly the dispatched actions appended, in
order; the subscription flags are untouched.  (Holds whether or not the
state pipeline has started.) -/
theorem runOps_dispatch_action {P S : Type} (R : Reducer (ActionObj P) S)
    (as : List (ActionObj P)) :
    ∀ st : StoreSt P S,
      (runOps R (as.map StoreOp.dispatch) st).actionSub = st.actionSub
      ∧ ∀ i, (runOps R (as.map StoreOp.dispatch) st).actionObs i
          = if st.actionSub i then st.actionObs i ++ as else st.actionObs i := by
  induction as with
  | nil =>
    intro st
    refine ⟨rfl, fun i => ?_⟩
    by_cases h : st.actionSub i <;> simp [runOps, h]
  | cons a rest ih =>
    intro st
    obtain ⟨hsub, hobs⟩ := stepOp_dispatch_action R st a
    obtain ⟨ihsub, ihobs⟩ := ih (stepOp R st (.dispatch a))
    refine ⟨by rw [List.map_cons, runOps_cons, ihsub, hsub], fun i => ?_⟩
    rw [List.map_cons, runOps_cons, ihobs i, hsub, hobs i]
    by_cases h : st.actionSub i <;> simp [h]

/-- Running a list of external dispatches on a store whose shared state
pipeline has started: the fold advances once per action, the buffer and
every subscribed state observer extend by the folded states, and the
reducer is called exactly once per action. -/
theorem runOps_dispatch_started {P S : Type} (R : Reducer (ActionObj P) S)
    (as : List (ActionObj P)) :
    ∀ st : StoreSt P S, st.started = true →
      (runOps R (as.map StoreOp.dispatch) st).started = true
      ∧ (runOps R (as.map StoreOp.dispatch) st).acc = foldAcc R st.acc as
      ∧ (runOps R (as.map StoreOp.dispatch) st).buffer
          = st.buffer ++ foldStates R st.acc as
      ∧ (runOps R (as.map StoreOp.dispatch) st).calls = st.calls + as.length
      ∧ (runOps R (as.map StoreOp.dispatch) st).stateSub = st.stateSub
      ∧ ∀ i, (runOps R (as.map StoreOp.dispatch) st).stateObs i
          = if st.stateSub i then st.stateObs i ++ foldStates R st.acc as
            else st.stateObs i := by
  induction as with
  | nil =>
    intro st h
    refine ⟨h, rfl, by simp [runOps, foldStates], by simp [runOps], rfl, fun i => ?_⟩
    by_cases hs : st.stateSub i <;> simp [runOps, foldStates, hs]
  | cons a rest ih =>
    intro st h
    have hstep : stepOp R st (.dispatch a) =
        { st with
          current := a
          actionObs := fun i =>
            if st.actionSub i then st.actionObs i ++ [a] else st.actionObs i
          acc := R (some st.acc) a
          buffer := st.buffer ++ [R (some st.acc) a]
          calls := st.calls + 1
          stateObs := fun i =>
            if st.stateSub i then st.stateObs i ++ [R (some st.acc) a]
            else st.stateObs i } := by
      simp [stepOp, pushState, h]
    obtain ⟨ih1, ih2, ih3, ih4, ih5, ih6⟩ := ih (stepOp R st (.dispatch a)) (by rw [hstep]; exact h)
    rw [List.map_cons, runOps_cons] at *
    refine ⟨ih1, ?_, ?_, ?_, ?_, fun i => ?_⟩
    · rw [ih2, hstep]; rfl
    · rw [ih3, hstep]; simp [foldStates]
    · rw [ih4, hstep]; simp [List.length_cons]; omega
    · rw [ih5, hstep]
    · rw [ih6 i, hstep]
      by_cases hs : st.stateSub i <;> simp [hs, foldStates]

theorem runOps_append {P S : Type} (R : Reducer (ActionObj P) S)
    (xs ys : List (StoreOp P)) (st : StoreSt P S) :
    runOps R (xs ++ ys) st = runOps R ys (runOps R xs st) :=
  List.foldl_append _ _ _ _

/-- The first `state$` subscription on a fresh store connects the shared
pipeline: the `BehaviorSubject` replays `@@INIT` into `scan`, producing the
single state `R (R undefined @@INIT/state) @@INIT`, delivered to the new
subscriber; the reducer has now run twice (seed + `@@INIT`). -/
theorem stepOp_subState_fresh {P S : Type} (R : Reducer (ActionObj P) S)
    (e : Option Unit) (k : Nat) :
    (stepOp R (storeInit R e) (.subState k)).started = true
    ∧ (stepOp R (storeInit R e) (.subState k)).acc
        = R (some (R none initStateAction)) initAction
    ∧ (stepOp R (storeInit R e) (.subState k)).buffer
        = [R (some (R none initStateAction)) initAction]
    ∧ (stepOp R (storeInit R e) (.subState k)).calls = 2
    ∧ (∀ j, (stepOp R (storeInit R e) (.subState k)).stateSub j
        = if j = k then true else false)
    ∧ (∀ j, (stepOp R (storeInit R e) (.subState k)).stateObs j
        = if j = k then [R (some (R none initStateAction)) initAction] else []) := by
  refine ⟨by simp [stepOp, storeInit, pushState], rfl, by simp [stepOp, storeInit, pushState],
    by simp [stepOp, storeInit, pushState], fun j => ?_, fun j => ?_⟩ <;>
    by_cases hj : j = k <;> simp [stepOp, storeInit, pushState, hj]

/-- C1.  For every reducer `R` and every finite action sequence `a1..an`
dispatched externally after subscribing to the state stream, the subscriber
observes exactly the state sequence obtained by manually folding `R`,
starting from the seed `R(undefined, {type: '@@INIT/state'})`, over the
action sequence `[{type: '@@INIT'}, a1, .., an]`. -/
theorem c1_state_stream_is_manual_fold {P S : Type} (R : Reducer (ActionObj P) S)
    (as : List (ActionObj P)) :
    (runStore R none (StoreOp.subState 0 :: as.map StoreOp.dispatch)).stateObs 0
      = foldStates R (R none initStateAction) (initAction :: as) := by
  obtain ⟨h1, h2, h3, h4, h5, h6⟩ := stepOp_subState_fresh R none 0
  rw [runStore, runOps_cons]
  obtain ⟨-, -, -, -, -, hobs⟩ :=
    runOps_dispatch_started R as (stepOp R (storeInit R none) (.subState 0)) h1
  rw [hobs 0, h5 0, h6 0, h2]
  simp [foldStates]

/-- Subscribing to `state$` any number of further times once the shared
pipeline is started only replays the buffer: fold accumulator, buffer and
reducer-call count are untouched. -/
theorem runOps_subs_started {P S : Type} (R : Reducer (ActionObj P) S)
    (l : List Nat) :
    ∀ st : StoreSt P S, st.started = true →
      (runOps R (l.map StoreOp.subState) st).started = true
      ∧ (runOps R (l.map StoreOp.subState) st).calls = st.calls
      ∧ (runOps R (l.map StoreOp.subState) st).acc = st.acc
      ∧ (runOps R (l.map StoreOp.subState) st).buffer = st.buffer := by
  induction l with
  | nil => intro st h; exact ⟨h, rfl, rfl, rfl⟩
  | cons k rest ih =>
    intro st h
    have hstep : stepOp R st (.subState k) =
        { st with
          stateSub := fun j => if j = k then true else st.stateSub j
          stateObs := fun j => if j = k then st.stateObs j ++ st.buffer
                               else st.stateObs j } := by
      simp [stepOp, h]
    rw [List.map_cons, runOps_cons]
    obtain ⟨ih1, ih2, ih3, ih4⟩ := ih (stepOp R st (.subState k)) (by rw [hstep]; exact h)
    refine ⟨ih1, ?_, ?_, ?_⟩
    · rw [ih2, hstep]
    · rw [ih3, hstep]
    · rw [ih4, hstep]

/-- The total number of reducer invocations after `N ≥ 1` state
subscriptions followed by the dispatches `as` is `2 + as.length`:
one eager seed call, one call for the `@@INIT` replay at the first
subscription, one call per dispatched action — independent of `N`. -/
theorem calls_subs_dispatch {P S : Type} (R : Reducer (ActionObj P) S)
    (as : List (ActionObj P)) (N : Nat) (h : 1 ≤ N) :
    (runStore R none
        ((List.range N).map StoreOp.subState ++ as.map StoreOp.dispatch)).calls
      = 2 + as.length := by
  obtain ⟨n, rfl⟩ : ∃ n, N = n + 1 := ⟨N - 1, by omega⟩
  rw [runStore, List.range_succ_eq_map, List.map_cons, List.cons_append, runOps_cons,
    runOps_append]
  obtain ⟨hst1, -, -, -, -, -⟩ := stepOp_subState_fresh R none 0
  obtain ⟨hs1, hs2, hs3, hs4⟩ :=
    runOps_subs_started R ((List.range n).map Nat.succ)
      (stepOp R (storeInit R none) (.subState 0)) hst1
  obtain ⟨-, -, -, hcalls, -, -⟩ :=
    runOps_dispatch_started R as _ hs1
  rw [hcalls, hs2]
  obtain ⟨-, -, -, hc2, -, -⟩ := stepOp_subState_fresh R none 0
  rw [hc2]

/-- C3.  For every fixed externally dispatched action sequence and every
`N ≥ 1`, subscribing to the state stream `N` times causes the root reducer
to be invoked exactly as often as subscribing once: state computation is
shared across subscribers, never re-folded per subscriber. -/
theorem c3_reducer_calls_independent_of_subscribers {P S : Type}
    (R : Reducer (ActionObj P) S) (as : List (ActionObj P)) (N : Nat) (h : 1 ≤ N) :
    (runStore R none
        ((List.range N).map StoreOp.subState ++ as.map StoreOp.dispatch)).calls
      = (runStore R none
        ((List.range 1).map StoreOp.subState ++ as.map StoreOp.dispatch)).calls := by
  rw [calls_subs_dispatch R as N h, calls_subs_dispatch R as 1 (by omega)]

/-- Witness for C3 at `N = 3` and one dispatched action. -/
theorem c3_witness :
    1 ≤ 3
    ∧ (runStore countReducer none
        ((List.range 3).map StoreOp.subState
          ++ [(⟨"A", none⟩ : ActionObj Unit)].map StoreOp.dispatch)).calls
      = (runStore countReducer none
        ((List.range 1).map StoreOp.subState
          ++ [(⟨"A", none⟩ : ActionObj Unit)].map StoreOp.dispatch)).calls :=
  ⟨by decide, c3_reducer_calls_independent_of_subscribers countReducer _ 3 (by decide)⟩

/-- C2.  The claim says `createStore(reducer)` with no effect argument
performs zero publishes into the internal effect-registration stream.  The
code publishes `rootEffect` into `effect$` unconditionally (line 48), so the
publish count is 1 whether or not an effect argument was supplied — the
no-effect half of the claim fails on the code (the repository's own test
suite asserts the zero-publish behaviour). -/
theorem c2_effect_publish_unconditional {P S : Type} (R : Reducer (ActionObj P) S)
    (eff : Option Unit) : (storeInit R eff).effectPublishes = 1 := rfl

theorem head?_append_some {α : Type} {l : List α} {s : α} (l' : List α)
    (h : l.head? = some s) : (l ++ l').head? = some s := by
  cases l with
  | nil => simp at h
  | cons b t => simpa using h

theorem stepOp_dispatch_started_eq {P S : Type} (R : Reducer (ActionObj P) S)
    (st : StoreSt P S) (a : ActionObj P) (h : st.started = true) :
    stepOp R st (.dispatch a) =
      { st with
        current := a
        actionObs := fun i =>
          if st.actionSub i then st.actionObs i ++ [a] else st.actionObs i
        acc := R (some st.acc) a
        buffer := st.buffer ++ [R (some st.acc) a]
        calls := st.calls + 1
        stateObs := fun i =>
          if st.stateSub i then st.stateObs i ++ [R (some st.acc) a]
          else st.stateObs i } := by
  simp [stepOp, pushState, h]

theorem stepOp_subState_started_eq {P S : Type} (R : Reducer (ActionObj P) S)
    (st : StoreSt P S) (k : Nat) (h : st.started = true) :
    stepOp R st (.subState k) =
      { st with
        stateSub := fun j => if j = k then true else st.stateSub j
        stateObs := fun j => if j = k then st.stateObs j ++ st.buffer
                             else st.stateObs j } := by
  simp [stepOp, h]

theorem stepOp_subAction_eq {P S : Type} (R : Reducer (ActionObj P) S)
    (st : StoreSt P S) (i : Nat) :
    stepOp R st (.subAction i) =
      { st with
        actionSub := fun j => if j = i then true else st.actionSub j
        actionObs := fun j => if j = i then st.actionObs j ++ [st.current]
                              else st.actionObs j } := rfl

/-- `FirstStateInv` is preserved by every store operation. -/
theorem firstStateInv_step {P S : Type} (R : Reducer (ActionObj P) S) (s1 : S)
    (st : StoreSt P S) (op : StoreOp P) (h : FirstStateInv s1 st) :
    FirstStateInv s1 (stepOp R st op) := by
  obtain ⟨h1, h2, h3⟩ := h
  cases op with
  | dispatch a =>
    rw [stepOp_dispatch_started_eq R st a h1]
    refine ⟨h1, head?_append_some _ h2, fun j => ?_⟩
    have h3j := h3 j
    by_cases hsj : st.stateSub j <;> simp only [hsj, if_true, if_false] at h3j ⊢
    · exact head?_append_some _ h3j
    · exact h3j
  | subAction i =>
    rw [stepOp_subAction_eq R st i]
    exact ⟨h1, h2, h3⟩
  | subState k =>
    rw [stepOp_subState_started_eq R st k h1]
    refine ⟨h1, h2, fun j => ?_⟩
    have h3j := h3 j
    by_cases hjk : j = k
    · subst hjk
      by_cases hsj : st.stateSub j = true
      · rw [if_pos hsj] at h3j
        simpa using head?_append_some st.buffer h3j
      · rw [if_neg hsj] at h3j
        simpa [h3j] using h2
    · simpa [hjk] using h3j

/-- State subscriptions are never torn down: `stateSub` is monotone. -/
theorem stateSub_mono_step {P S : Type} (R : Reducer (ActionObj P) S)
    (st : StoreSt P S) (op : StoreOp P) (i : Nat) (h : st.stateSub i = true) :
    (stepOp R st op).stateSub i = true := by
  cases op with
  | dispatch a => by_cases hs : st.started = true <;> simp [stepOp, pushState, hs, h]
  | subAction k => simpa [stepOp] using h
  | subState k =>
    by_cases hs : st.started = true <;> by_cases hik : i = k <;>
      simp [stepOp, pushState, hs, hik, h]

/-- Processing `subState k` subscribes observer `k`. -/
theorem stepOp_subState_sets {P S : Type} (R : Reducer (ActionObj P) S)
    (st : StoreSt P S) (k : Nat) :
    (stepOp R st (.subState k)).stateSub k = true := by
  by_cases hs : st.started = true <;> simp [stepOp, pushState, hs]

/-- Running any operation sequence from a state satisfying `FirstStateInv`
preserves it, and any observer subscribed during (or before) the run ends
subscribed. -/
theorem firstStateInv_run {P S : Type} (R : Reducer (ActionObj P) S) (s1 : S)
    (i : Nat) (ops : List (StoreOp P)) :
    ∀ st : StoreSt P S, FirstStateInv s1 st →
      (StoreOp.subState i ∈ ops ∨ st.stateSub i = true) →
      FirstStateInv s1 (runOps R ops st) ∧ (runOps R ops st).stateSub i = true := by
  induction ops with
  | nil =>
    intro st hinv hmem
    rcases hmem with h | h
    · simp at h
    · exact ⟨hinv, h⟩
  | cons op rest ih =>
    intro st hinv hmem
    rw [runOps_cons]
    refine ih (stepOp R st op) (firstStateInv_step R s1 st op hinv) ?_
    rcases hmem with h | h
    · rcases List.mem_cons.mp h with heq | hrest
      · right; rw [← heq]; exact stepOp_subState_sets R st i
      · exact Or.inl hrest
    · exact Or.inr (stateSub_mono_step R st op i h)

/-- C4's counterexample.  With the counting reducer the first value a state
subscriber observes is `1 = R(seed, @@INIT)`, not the bootstrap seed
`R(undefined, @@INIT/state) = 0`: `scan` never emits its seed. -/
theorem c4_counterexample :
    ((runStore countReducer none [StoreOp.subState 0]).stateObs 0).head?
      ≠ some (countReducer none initStateAction) := by
  decide

/-- C4, amended.  Provided some subscriber subscribes to the state stream
before any dispatch, the first value observed by every state subscriber is
`R(R(undefined, @@INIT/state), @@INIT)` — the fold's output for the
reserved `@@INIT` action applied to the bootstrap seed — not the bootstrap
seed itself. -/
theorem c4_first_state_value {P S : Type} (R : Reducer (ActionObj P) S)
    (ops : List (StoreOp P)) (i : Nat)
    (h : StoreOp.subState i ∈ StoreOp.subState 0 :: ops) :
    ((runStore R none (StoreOp.subState 0 :: ops)).stateObs i).head?
      = some (R (some (R none initStateAction)) initAction) := by
  obtain ⟨hst, hacc, hbuf, -, hsub, hobs⟩ := stepOp_subState_fresh R none 0
  have hinv : FirstStateInv (R (some (R none initStateAction)) initAction)
      (stepOp R (storeInit R none) (.subState 0)) := by
    refine ⟨hst, by rw [hbuf]; rfl, fun j => ?_⟩
    rw [hsub j, hobs j]
    by_cases hj : j = 0 <;> simp [hj]
  have hmem : StoreOp.subState i ∈ ops
      ∨ (stepOp R (storeInit R none) (.subState 0)).stateSub i = true := by
    rcases List.mem_cons.mp h with heq | hrest
    · right
      have : i = 0 := by injection heq
      rw [this, hsub 0]; simp
    · exact Or.inl hrest
  rw [runStore, runOps_cons]
  obtain ⟨⟨-, -, hobsAll⟩, hsubEnd⟩ :=
    firstStateInv_run R (R (some (R none initStateAction)) initAction) i ops
      (stepOp R (storeInit R none) (.subState 0)) hinv hmem
  have := hobsAll i
  rw [hsubEnd] at this
  simpa using this

/-- Witness for C4's amended theorem: a subscriber subscribing after one
dispatch still first observes `R(seed, @@INIT)` (here `1`). -/
theorem c4_first_state_value_witness :
    StoreOp.subState 1 ∈
        ([StoreOp.subState 0, StoreOp.dispatch ⟨"A", none⟩, StoreOp.subState 1]
          : List (StoreOp Unit))
    ∧ ((runStore countReducer none
          [StoreOp.subState 0, StoreOp.dispatch ⟨"A", none⟩,
            StoreOp.subState 1]).stateObs 1).head?
        = some (countReducer (some (countReducer none initStateAction)) initAction) :=
  ⟨by decide,
    c4_first_state_value countReducer [StoreOp.dispatch ⟨"A", none⟩, StoreOp.subState 1] 1
      (by decide)⟩

/-- C5's counterexample.  A subscriber that subscribes to the action stream
after one dispatch observes the latest action (`BehaviorSubject` replays
only its current value), not `@@INIT`: its trace is `[{type: 'A'}]`, which
neither starts with `@@INIT` nor contains it. -/
theorem c5_counterexample :
    (runStore countReducer none
        [StoreOp.dispatch ⟨"A", none⟩, StoreOp.subAction 0]).actionObs 0
      = [(⟨"A", none⟩ : ActionObj Unit)]
    ∧ ((⟨"A", none⟩ : ActionObj Unit) : ActionObj Unit) ≠ initAction := by
  constructor
  · rfl
  · decide

/-- C5, amended.  A subscriber that subscribes to the action stream before
any dispatch observes `@@INIT` as its first value, followed by exactly the
dispatched actions; when no dispatched action itself carries the type
`'@@INIT'`, the subscriber observes `@@INIT` exactly once. -/
theorem c5_init_first_for_early_subscriber {P S : Type} (R : Reducer (ActionObj P) S)
    (as : List (ActionObj P)) (h : ∀ a ∈ as, a.type ≠ "@@INIT") :
    (runStore R none (StoreOp.subAction 0 :: as.map StoreOp.dispatch)).actionObs 0
      = initAction :: as
    ∧ List.countP (fun a => a.type == "@@INIT")
        ((runStore R none (StoreOp.subAction 0 :: as.map StoreOp.dispatch)).actionObs 0)
      = 1 := by
  have hsub : (stepOp R (storeInit R none) (.subAction 0)).actionSub 0 = true := by
    simp [stepOp, storeInit]
  have hob : (stepOp R (storeInit R none) (.subAction 0)).actionObs 0
      = [initAction] := by
    simp [stepOp, storeInit]
  obtain ⟨-, hobs⟩ := runOps_dispatch_action R as (stepOp R (storeInit R none) (.subAction 0))
  have hmain : (runStore R none (StoreOp.subAction 0 :: as.map StoreOp.dispatch)).actionObs 0
      = initAction :: as := by
    rw [runStore, runOps_cons, hobs 0, hsub, if_pos rfl, hob]
    rfl
  refine ⟨hmain, ?_⟩
  rw [hmain, List.countP_cons]
  have hzero : List.countP (fun a => a.type == "@@INIT") as = 0 := by
    rw [List.countP_eq_zero]
    intro a ha
    simpa using h a ha
  simp [hzero, initAction]

/-- Witness for C5's amended theorem with one dispatched action. -/
theorem c5_init_first_witness :
    (∀ a ∈ [(⟨"B", none⟩ : ActionObj Unit)], a.type ≠ "@@INIT")
    ∧ ((runStore countReducer none
          (StoreOp.subAction 0
            :: [(⟨"B", none⟩ : ActionObj Unit)].map StoreOp.dispatch)).actionObs 0
        = initAction :: [(⟨"B", none⟩ : ActionObj Unit)]
      ∧ List.countP (fun a => a.type == "@@INIT")
          ((runStore countReducer none
            (StoreOp.subAction 0
              :: [(⟨"B", none⟩ : ActionObj Unit)].map StoreOp.dispatch)).actionObs 0)
        = 1) :=
  ⟨by decide, c5_init_first_for_early_subscriber countReducer _ (by decide)⟩

/-- C6's counterexample.  After two state values (`1` from `@@INIT`, `2`
from the dispatch) have been computed, a new subscriber receives the full
two-element history `[1, 2]`, not the single most recent value:
`shareReplay()` keeps an unbounded buffer. -/
theorem c6_counterexample :
    (runStore countReducer none
        [StoreOp.subState 0, StoreOp.dispatch ⟨"A", none⟩,
          StoreOp.subState 1]).stateObs 1 = [1, 2]
    ∧ ((runStore countReducer none
        [StoreOp.subState 0, StoreOp.dispatch ⟨"A", none⟩,
          StoreOp.subState 1]).stateObs 1).length ≠ 1 := by
  constructor
  · rfl
  · decide

theorem foldStates_append {A S : Type} (R : Reducer A S) (xs : List A) :
    ∀ (s : S) (ys : List A),
      foldStates R s (xs ++ ys) = foldStates R s xs ++ foldStates R (foldAcc R s xs) ys := by
  induction xs with
  | nil => intro s ys; rfl
  | cons a rest ih => intro s ys; simp [foldStates, foldAcc, ih]

/-- C6, amended.  The state stream replays its full history to a new
subscriber: with the fold started by a first subscriber, a subscriber that
arrives after the dispatches `as` immediately receives every state value
computed so far and then the values for the further dispatches `bs` — i.e.
exactly the whole manual fold over `[@@INIT] ++ as ++ bs`, not just the
most recent value. -/
theorem c6_state_stream_replays_history {P S : Type} (R : Reducer (ActionObj P) S)
    (as bs : List (ActionObj P)) (j : Nat) (hj : j ≠ 0) :
    (runStore R none
        (StoreOp.subState 0 ::
          (as.map StoreOp.dispatch
            ++ StoreOp.subState j :: bs.map StoreOp.dispatch))).stateObs j
      = foldStates R (R none initStateAction) (initAction :: (as ++ bs)) := by
  obtain ⟨hst, hacc, hbuf, -, hsub, hobs⟩ := stepOp_subState_fresh R none 0
  rw [runStore, runOps_cons, runOps_append, runOps_cons]
  obtain ⟨h2started, h2acc, h2buf, -, h2sub, h2obs⟩ :=
    runOps_dispatch_started R as (stepOp R (storeInit R none) (.subState 0)) hst
  have h3 := stepOp_subState_started_eq R
    (runOps R (as.map StoreOp.dispatch) (stepOp R (storeInit R none) (.subState 0))) j
    h2started
  rw [h3]
  obtain ⟨-, -, -, -, -, h4obs⟩ :=
    runOps_dispatch_started R bs
      { runOps R (as.map StoreOp.dispatch) (stepOp R (storeInit R none) (.subState 0)) with
        stateSub := fun j' => if j' = j then true
          else (runOps R (as.map StoreOp.dispatch)
            (stepOp R (storeInit R none) (.subState 0))).stateSub j'
        stateObs := fun j' => if j' = j then
            (runOps R (as.map StoreOp.dispatch)
              (stepOp R (storeInit R none) (.subState 0))).stateObs j'
              ++ (runOps R (as.map StoreOp.dispatch)
                (stepOp R (storeInit R none) (.subState 0))).buffer
          else (runOps R (as.map StoreOp.dispatch)
            (stepOp R (storeInit R none) (.subState 0))).stateObs j' }
      h2started
  rw [h4obs j]
  simp only [if_pos rfl]
  rw [h2obs j, h2sub, hsub j, if_neg hj, hobs j, if_neg hj, h2buf, hbuf, h2acc, hacc]
  simp [foldStates_append, foldStates]

/-- Witness for C6's amended theorem: with the counting reducer, a
subscriber arriving after one dispatch observes the full history `[1, 2]`
and then `3` for the further dispatch. -/
theorem c6_replays_history_witness :
    (1 : Nat) ≠ 0
    ∧ (runStore countReducer none
        (StoreOp.subState 0 ::
          ([(⟨"A", none⟩ : ActionObj Unit)].map StoreOp.dispatch
            ++ StoreOp.subState 1
              :: [(⟨"B", none⟩ : ActionObj Unit)].map StoreOp.dispatch))).stateObs 1
      = foldStates countReducer (countReducer none initStateAction)
          (initAction :: ([(⟨"A", none⟩ : ActionObj Unit)] ++ [(⟨"B", none⟩ : ActionObj Unit)])) :=
  ⟨by decide,
    c6_state_stream_replays_history countReducer
      [(⟨"A", none⟩ : ActionObj Unit)] [(⟨"B", none⟩ : ActionObj Unit)] 1 (by decide)⟩

/-! ### `combineReducers` lemmas -/

theorem getField_setField_self {V : Type} (o : Obj V) (f : String) (v : V) :
    getField (setField o f v) f = some v := by
  induction o with
  | nil => simp [setField, getField]
  | cons p rest ih =>
    obtain ⟨g, w⟩ := p
    by_cases h : g = f
    · simp [setField, getField, h]
    · simp [setField, getField, h, ih]

theorem getField_setField_ne {V : Type} (o : Obj V) (f g : String) (v : V)
    (h : g ≠ f) : getField (setField o f v) g = getField o g := by
  induction o with
  | nil => simp [setField, getField, Ne.symm h]
  | cons p rest ih =>
    obtain ⟨g', w⟩ := p
    by_cases hg : g' = f
    · subst hg
      simp [setField, getField, Ne.symm h]
    · by_cases hgg : g' = g
      · subst hgg
        simp [setField, getField, hg]
      · simp [setField, getField, hg, hgg, ih]

/-- If every listed sub-reducer returns exactly its previous sub-state, the
`combineReducers` fold returns its accumulator unchanged — the same object,
matching the source's reference-stable short-circuit. -/
theorem crFold_unchanged {V A : Type} [DecidableEq V] (a : A) :
    ∀ (rs : List (String × SubReducer V A)) (acc : Obj V),
      (∀ fr ∈ rs, getField acc fr.1 = some (fr.2 (getField acc fr.1) a)) →
      rs.foldl (crStep a) acc = acc := by
  intro rs
  induction rs with
  | nil => intro acc _; rfl
  | cons fr rest ih =>
    intro acc h
    have hfr := h fr (List.mem_cons_self _ _)
    have hcond : ¬ (getField acc fr.1 ≠ some (fr.2 (getField acc fr.1) a)) :=
      not_ne_iff.mpr hfr
    have hstep : crStep a acc fr = acc := by
      simp only [crStep]
      rw [if_neg hcond]
    rw [List.foldl_cons, hstep]
    exact ih acc fun g hg => h g (List.mem_cons_of_mem _ hg)

/-- The `combineReducers` fold, on a field mapping with distinct field
names and an accumulator that agrees with `prev` on all listed fields:
every listed field ends at its sub-reducer's output for `prev`'s sub-state,
and every other field is untouched. -/
theorem crFold_fields {V A : Type} [DecidableEq V] (a : A) :
    ∀ (rs : List (String × SubReducer V A)) (acc prev : Obj V),
      (rs.map Prod.fst).Nodup →
      (∀ fr ∈ rs, getField acc fr.1 = getField prev fr.1) →
      (∀ fr ∈ rs, getField (rs.foldl (crStep a) acc) fr.1
          = some (fr.2 (getField prev fr.1) a))
      ∧ ∀ g, g ∉ rs.map Prod.fst →
          getField (rs.foldl (crStep a) acc) g = getField acc g := by
  intro rs
  induction rs with
  | nil =>
    intro acc prev hnd hagree
    exact ⟨fun fr hfr => absurd hfr (List.not_mem_nil _), fun g _ => rfl⟩
  | cons fr rest ih =>
    intro acc prev hnd hagree
    have hfr_prev : getField acc fr.1 = getField prev fr.1 :=
      hagree fr (List.mem_cons_self _ _)
    have hacc_at : getField (crStep a acc fr) fr.1
        = some (fr.2 (getField prev fr.1) a) := by
      by_cases hch : getField acc fr.1 ≠ some (fr.2 (getField acc fr.1) a)
      · simp only [crStep]
        rw [if_pos hch, getField_setField_self, hfr_prev]
      · simp only [crStep]
        rw [if_neg hch]
        rw [not_ne_iff, hfr_prev] at hch
        rw [hfr_prev]
        exact hch
    have hacc_off : ∀ g, g ≠ fr.1 → getField (crStep a acc fr) g = getField acc g := by
      intro g hg
      by_cases hch : getField acc fr.1 ≠ some (fr.2 (getField acc fr.1) a)
      · simp only [crStep]
        rw [if_pos hch, getField_setField_ne _ _ _ _ hg]
      · simp only [crStep]
        rw [if_neg hch]
    have hnotin : fr.1 ∉ rest.map Prod.fst := (List.nodup_cons.mp hnd).1
    have hnd2 : (rest.map Prod.fst).Nodup := (List.nodup_cons.mp hnd).2
    have hagree2 : ∀ g ∈ rest, getField (crStep a acc fr) g.1 = getField prev g.1 := by
      intro g hg
      have hne : g.1 ≠ fr.1 := fun he =>
        hnotin (he ▸ List.mem_map_of_mem Prod.fst hg)
      rw [hacc_off g.1 hne]
      exact hagree g (List.mem_cons_of_mem _ hg)
    obtain ⟨ih1, ih2⟩ := ih (crStep a acc fr) prev hnd2 hagree2
    refine ⟨fun g hg => ?_, fun g hg => ?_⟩
    · rcases List.mem_cons.mp hg with heq | hgr
      · subst heq
        rw [List.foldl_cons, ih2 g.1 hnotin, hacc_at]
      · rw [List.foldl_cons]
        exact ih1 g hgr
    · have hgfr : g ≠ fr.1 := fun he => hg (by rw [he]; exact List.mem_cons_self _ _)
      have hgrest : g ∉ rest.map Prod.fst := fun hin => hg (List.mem_cons_of_mem _ hin)
      rw [List.foldl_cons, ih2 g hgrest, hacc_off g hgfr]

/-- C7.  For a reducer mapping with distinct field names, a previous
aggregate, and an action: if every sub-reducer returns a value strictly
equal to its previous sub-state, the composed reducer returns the previous
aggregate object itself; if at least one sub-reducer returns a new value,
the composed reducer returns a new aggregate (distinct from the previous
one) carrying every listed field's latest (possibly unchanged) value and
leaving all other fields untouched. -/
theorem c7_combineReducers_reference_stable {V A : Type} [DecidableEq V]
    (reducers : List (String × SubReducer V A)) (prev : Obj V) (a : A)
    (hnd : (reducers.map Prod.fst).Nodup) :
    ((∀ fr ∈ reducers, getField prev fr.1 = some (fr.2 (getField prev fr.1) a)) →
        combineReducers reducers (some prev) a = prev)
    ∧ ((∃ fr ∈ reducers, getField prev fr.1 ≠ some (fr.2 (getField prev fr.1) a)) →
        combineReducers reducers (some prev) a ≠ prev
        ∧ (∀ fr ∈ reducers, getField (combineReducers reducers (some prev) a) fr.1
            = some (fr.2 (getField prev fr.1) a))
        ∧ ∀ g, g ∉ reducers.map Prod.fst →
            getField (combineReducers reducers (some prev) a) g = getField prev g) := by
  have hcr : combineReducers reducers (some prev) a
      = reducers.foldl (crStep a) prev := rfl
  obtain ⟨hfin, hoff⟩ := crFold_fields a reducers prev prev hnd (fun _ _ => rfl)
  constructor
  · intro hall
    rw [hcr]
    exact crFold_unchanged a reducers prev hall
  · rintro ⟨fr, hfr, hch⟩
    refine ⟨?_, fun g hg => by rw [hcr]; exact hfin g hg,
      fun g hg => by rw [hcr]; exact hoff g hg⟩
    intro heq
    apply hch
    have hv := hfin fr hfr
    rw [hcr] at heq
    rw [heq] at hv
    exact hv

/-- Witness for C7 on a concrete two-field mapping where field `a` is kept
and field `b` changes. -/
theorem c7_combineReducers_witness :
    (demoSubReducers.map Prod.fst).Nodup
    ∧ (((∀ fr ∈ demoSubReducers,
          getField demoPrev fr.1 = some (fr.2 (getField demoPrev fr.1) 0)) →
            combineReducers demoSubReducers (some demoPrev) 0 = demoPrev)
      ∧ ((∃ fr ∈ demoSubReducers,
            getField demoPrev fr.1 ≠ some (fr.2 (getField demoPrev fr.1) 0)) →
          combineReducers demoSubReducers (some demoPrev) 0 ≠ demoPrev
          ∧ (∀ fr ∈ demoSubReducers,
              getField (combineReducers demoSubReducers (some demoPrev) 0) fr.1
                = some (fr.2 (getField demoPrev fr.1) 0))
          ∧ ∀ g, g ∉ demoSubReducers.map Prod.fst →
              getField (combineReducers demoSubReducers (some demoPrev) 0) g
                = getField demoPrev g)) :=
  ⟨by decide, c7_combineReducers_reference_stable demoSubReducers demoPrev 0 (by decide)⟩

/-- C8's counterexample.  `createAction('')` does not fail fast: it returns
the action object carrying the malformed empty type. -/
theorem c8_counterexample :
    createAction "" (none : Option Unit) = { type := "", payload := none } := rfl

/-- C8, amended.  `createAction` performs no runtime validation at all: for
every type string — the empty string included — it returns the action
object carrying exactly that type (and the supplied payload, omitted when
absent); it never raises. -/
theorem c8_createAction_no_validation {P : Type} (t : String) (p : Option P) :
    (createAction t p).type = t ∧ (createAction t p).payload = p := by
  cases p <;> exact ⟨rfl, rfl⟩

/-! ### `select` lemmas -/

/-- The `distinctUntilChanged` loop with last-emitted value `a` computes
`destutter'` for the complement of strict equality (minus its leading
element). -/
theorem ducGo_eq_destutter' (l : List JSVal) :
    ∀ a : JSVal, List.destutter' jsNeq a l = a :: ducGo (some a) l := by
  induction l with
  | nil => intro a; simp [List.destutter'_nil, ducGo]
  | cons b rest ih =>
    intro a
    by_cases h : jsNeq a b
    · rw [List.destutter'_cons, if_pos h, ih b]
      have hb : jsEq a b = false := by
        revert h
        rw [jsNeq]
        cases jsEq a b <;> simp
      simp [ducGo, hb]
    · rw [List.destutter'_cons, if_neg h, ih a]
      have hb : jsEq a b = true := by
        revert h
        rw [jsNeq]
        cases jsEq a b <;> simp
      simp [ducGo, hb]

/-- `distinctUntilChanged` is `List.destutter` under the complement of JS
strict equality. -/
theorem distinctUntilChanged_eq_destutter (l : List JSVal) :
    distinctUntilChanged l = List.destutter jsNeq l := by
  cases l with
  | nil => rfl
  | cons a rest =>
    rw [List.destutter_cons', ducGo_eq_destutter' rest a]
    simp [distinctUntilChanged, ducGo]

/-- C9.  In both mapper and path mode, a `select`-derived stream emits a
projected value iff it differs by strict equality from the last projection
the derived stream actually emitted (not from every source emission):
its output is exactly `destutter` of the projected source under
the complement of strict equality, and consecutive emitted values are
always pairwise distinct under strict equality. -/
theorem c9_select_emits_on_change (pm : PathOrMapper) (paths : List String)
    (src : List JSVal) :
    selectOp pm paths src
      = List.destutter jsNeq (src.map (selectProj pm paths))
    ∧ List.Chain' jsNeq (selectOp pm paths src) := by
  have h : selectOp pm paths src
      = List.destutter jsNeq (src.map (selectProj pm paths)) :=
    distinctUntilChanged_eq_destutter _
  refine ⟨h, ?_⟩
  rw [h]
  exact List.destutter_is_chain' jsNeq _

/-- Merging zero traces yields the empty trace. -/
theorem interleave_nil_sources {α : Type} {out : List α}
    (h : Interleave ([] : List (List α)) out) : out = [] := by
  generalize hsrcs : ([] : List (List α)) = srcs at h
  cases h with
  | done _ _ => rfl
  | step pre x xs post out h =>
    exact (List.cons_ne_nil _ _ (List.append_eq_nil.mp hsrcs.symm).2).elim

/-- C10.  `combineEffects()` with zero effects is a valid effect whose
output stream emits no actions at all, for every pair of input traces. -/
theorem c10_combineEffects_empty_is_silent {A S : Type} (action : List A)
    (state : List S) (out : List A)
    (h : combineEffects ([] : List (EffectFn A S)) action state out) : out = [] :=
  interleave_nil_sources h

/-- Witness for C10: the empty output is the (unique) merged trace of zero
effects. -/
theorem c10_combineEffects_witness :
    combineEffects ([] : List (EffectFn Nat Nat)) [] [] []
    ∧ ([] : List Nat) = [] :=
  ⟨Interleave.done [] (fun s hs => absurd hs (List.not_mem_nil s)),
    @c10_combineEffects_empty_is_silent Nat Nat [] [] []
      (Interleave.done [] (fun s hs => absurd hs (List.not_mem_nil s)))⟩
